import Mathlib

/-!
Verification development for the cascading price-list / client-request
extraction pipeline (`django_app/products/cascade_processor.py` and
`django_app/products/client_request_extractor.py`).

Spreadsheet cells are modelled as `Option String` (`none` = missing/NaN,
mirroring `pd.isna`; `str(nan) = "nan"` is reproduced by `cellStr`).
Python floats are modelled as rationals (`ℚ`): every price literal that the
cleaning code can produce is a decimal fraction, and the only operations the
code performs on prices are construction from decimal text and order
comparisons against integer bounds, which agree between `float` and `ℚ`.
-/

namespace Cascade

/-- Python whitespace characters stripped by `str.strip()` (ASCII whitespace
plus the non-breaking space, which `str.isspace` also accepts). -/
def pyIsSpace (c : Char) : Bool :=
  c = ' ' || c = '\t' || c = '\n' || c = '\r' || c = '\u000b' || c = '\u000c' || c = '\u00A0'

/-- `str.strip()` on a character list: drop leading and trailing whitespace. -/
def stripL (l : List Char) : List Char :=
  ((l.dropWhile pyIsSpace).reverse.dropWhile pyIsSpace).reverse

/-- Python `str.strip()`. -/
def pyStrip (s : String) : String := ⟨stripL s.data⟩

/-- Python `str.lower()` on one character, covering the alphabets that occur
in the keyword lists of the source: ASCII `A`–`Z` and Cyrillic `А`–`Я`, `Ё`. -/
def pyLowerChar (c : Char) : Char :=
  if 65 ≤ c.toNat ∧ c.toNat ≤ 90 then Char.ofNat (c.toNat + 32)
  else if 0x410 ≤ c.toNat ∧ c.toNat ≤ 0x42F then Char.ofNat (c.toNat + 32)
  else if c.toNat = 0x401 then Char.ofNat 0x451
  else c

/-- Python `str.lower()`. -/
def pyLower (s : String) : String := ⟨s.data.map pyLowerChar⟩

/-- Accumulating word splitter: `cur` holds the characters of the current
word in reverse. -/
def wordsAux (cur : List Char) : List Char → List String
  | [] => if cur.isEmpty then [] else [⟨cur.reverse⟩]
  | c :: rest =>
      if pyIsSpace c then
        if cur.isEmpty then wordsAux [] rest
        else ⟨cur.reverse⟩ :: wordsAux [] rest
      else wordsAux (c :: cur) rest

/-- Python `str.split()` (split on whitespace runs, discarding empty parts). -/
def pySplit (s : String) : List String := wordsAux [] s.data

/-- `List.isPrefixOf` written out for `Char` (needed below for substring
search, the Python `in` operator). -/
def startsList : List Char → List Char → Bool
  | [], _ => true
  | _ :: _, [] => false
  | a :: as, b :: bs => a = b && startsList as bs

/-- Python `w in s` substring test on character lists. -/
def subIn (w : List Char) : List Char → Bool
  | [] => w.isEmpty
  | c :: rest => startsList w (c :: rest) || subIn w rest

/-- Python `w in s` on strings. -/
def strIn (w s : String) : Bool := subIn w.data s.data

/-- `str(cell)` for a spreadsheet cell: pandas renders a missing value (NaN)
as the string `"nan"`. -/
def cellStr (cell : Option String) : String :=
  match cell with
  | none => "nan"
  | some s => s

/-- Digits-to-Nat accumulator (`int(...)` on a digit run). -/
def parseDigits (l : List Char) : Nat :=
  l.foldl (fun n c => n * 10 + (c.toNat - 48)) 0

/-- First maximal digit run of the text: the first match of the digit-run regular expression
(as the raw digit substring), `none` when the text has no digit. -/
def firstNumRun : List Char → Option (List Char)
  | [] => none
  | c :: rest =>
      if c.isDigit then some (c :: rest.takeWhile Char.isDigit)
      else firstNumRun rest

/-- Python `float(s)` restricted to the cleaned strings the extractors
produce (characters drawn from digits and `'.'`): at most one dot and at
least one digit parse; everything else raises, which the callers turn into
their fallback value. -/
def floatOfClean (l : List Char) : Option ℚ :=
  if l.all (fun c => c.isDigit || c = '.') then
    match l.count '.' with
    | 0 => if l = [] then none else some (parseDigits l)
    | 1 =>
        let ip := l.takeWhile (fun c => c ≠ '.')
        let fp := (l.dropWhile (fun c => c ≠ '.')).drop 1
        if ip = [] ∧ fp = [] then none
        else some ((parseDigits ip : ℚ) + (parseDigits fp : ℚ) / (10 : ℚ) ^ fp.length)
    | _ => none
  else none

/-! ### Level 2 cell cleaning (`_clean_price`, `_clean_stock`) -/

/-- Keep set of `re.sub` with pattern not-digit-comma-dot. -/
def keepDigitCommaDot (c : Char) : Bool := c.isDigit || c = ',' || c = '.'

/-- The comma-to-dot replace character map. -/
def commaToDot (c : Char) : Char := if c = ',' then '.' else c

/-- Digits and commas: what survives the mixed-separator branch of the
Level 3 cleaning before the final keep-digits-and-dots pass. -/
def keepDigitComma (c : Char) : Bool := c.isDigit || c = ','

/-- `CascadeProcessor._clean_price`: strip everything but digits and
separators, turn commas into dots, parse; empty or unparseable ⇒ `None`. -/
def cleanPriceL2 (cell : Option String) : Option ℚ :=
  match cell with
  | none => none
  | some s => floatOfClean ((s.data.filter keepDigitCommaDot).map commaToDot)

/-- Keyword families of `_clean_stock`. -/
def stockWordsL2Yes : List String := ["наличи", "есть", "+"]

def stockWordsL2Order : List String := ["заказ", "ожид"]

/-- `CascadeProcessor._clean_stock`: canonical availability strings, else the
first embedded digit run, else `"не указан"`. -/
def cleanStockL2 (cell : Option String) : String :=
  match cell with
  | none => "не указан"
  | some v =>
      let s := pyStrip (pyLower v)
      if stockWordsL2Yes.any (fun w => strIn w s) then "в наличии"
      else if stockWordsL2Order.any (fun w => strIn w s) then "под заказ"
      else
        match firstNumRun s.data with
        | some run => ⟨run⟩
        | none => "не указан"

/-! ### Level 3 heuristic row extraction (`_extract_products_with_subheaders`) -/

/-- One spreadsheet row: cells by column index, `none` = NaN. -/
def Row : Type := List (Option String)

/-- `row.get(col)`: columns beyond the stored width read as missing. -/
def getCell (r : Row) (i : Nat) : Option String :=
  (List.getD r i none)

/-- Keep set of the final `re.sub` (digits and dots) in Level 3 price
cleaning. -/
def keepDigitDot (c : Char) : Bool := c.isDigit || c = '.'

/-- The four literal bail-out values (nan, None, dash, empty) of the
Level 3 price cleaning. -/
def priceExcluded (raw : String) : Bool :=
  raw = "" || raw = "nan" || raw = "None" || raw = "-"

/-- The space and non-breaking-space characters removed by
the replace calls removing U+00A0 and the space. -/
def notSpaceNbsp (c : Char) : Bool := c ≠ ' ' && c ≠ '\u00A0'

/-- Both separators present: comma in text and dot in text. -/
def mixedSeps (l : List Char) : Bool := l.contains ',' && l.contains '.'

/-- Level 3 price cleaning for one cell (lines 1232–1260 of
`cascade_processor.py`): strip, bail out to the retained `0` on the literal
non-values, remove spaces and non-breaking spaces, treat the comma as the
decimal separator — removing all dots first when both separators occur —
keep digits and dots, parse; any failure leaves the price at `0`. -/
def cleanPriceCellL3 (cell : Option String) : ℚ :=
  let raw := pyStrip (cellStr cell)
  if priceExcluded raw then 0
  else
    let noSpace := raw.data.filter notSpaceNbsp
    let conv :=
      if mixedSeps noSpace then (noSpace.filter (fun c => c ≠ '.')).map commaToDot
      else noSpace.map commaToDot
    match floatOfClean (conv.filter keepDigitDot) with
    | some v => v
    | none => 0

/-- Stock keywords meaning "unavailable" (Level 3). -/
def stockWordsL3No : List String := ["нет", "0", "под заказ", "ожид", "отсут"]

/-- Stock keywords meaning "available" (Level 3). -/
def stockWordsL3Yes : List String := ["есть", "в наличии", "налич", "много"]

/-- Level 3 stock classification of one non-missing cell text
(lines 1262–1273): `str(v).lower().strip()`, then keyword tests, then the
first embedded number, defaulting to the sentinel 100. -/
def stockOfRaw (rawCell : String) : Nat :=
  let s := pyStrip (pyLower rawCell)
  if s = "nan" then 100
  else if stockWordsL3No.any (fun w => strIn w s) then 0
  else if stockWordsL3Yes.any (fun w => strIn w s) then 100
  else
    match firstNumRun s.data with
    | some run => parseDigits run
    | none => 100

/-- Level 3 stock of a cell, 100 when the cell is missing (`pd.notna` gate). -/
def stockCellL3 (cell : Option String) : Nat :=
  match cell with
  | none => 100
  | some v => stockOfRaw v

/-- A product as emitted by the Level 3 row walker. -/
structure L3Product where
  name : String
  price : ℚ
  stock : Nat
deriving DecidableEq, Repr

/-- The name cell of a row, `str(row.get(name_col, "")).strip()`. -/
def rowName (r : Row) (nameIdx : Nat) : String :=
  pyStrip (cellStr (getCell r nameIdx))

/-- A cell counts as empty for subheader detection when it is missing, or
strips to `""`, or strips-and-lowers to `"nan"`. -/
def isEmptyish (cell : Option String) : Bool :=
  match cell with
  | none => true
  | some s => pyStrip s = "" || pyLower (pyStrip s) = "nan"

/-- `is_subheader`: the name cell is non-empty and every cell of the row in
a column other than the name column is empty-ish. -/
def isSubheaderRow (r : Row) (nameIdx : Nat) : Bool :=
  rowName r nameIdx ≠ "" &&
    (List.range (List.length r)).all (fun i => i = nameIdx || isEmptyish (getCell r i))

/-- One iteration of the Level 3 row loop. State: current subheader text and
the accumulated products. -/
def extractStep (nameIdx priceIdx : Nat) (stockIdx : Option Nat)
    (st : String × List L3Product) (r : Row) : String × List L3Product :=
  let name := rowName r nameIdx
  if name = "" ∨ pyLower name = "nan" ∨ pyLower name = "none" then st
  else if isSubheaderRow r nameIdx then (name, st.2)
  else
    let fullName := pyStrip (st.1 ++ " " ++ name)
    let price := cleanPriceCellL3 (getCell r priceIdx)
    let stock :=
      match stockIdx with
      | some si => stockCellL3 (getCell r si)
      | none => 100
    if fullName ≠ "" ∧ pyStrip fullName ≠ "" ∧ pyLower fullName ≠ "nan" then
      (st.1, st.2 ++ [⟨fullName, price, stock⟩])
    else st

/-- `_extract_products_with_subheaders` over the data rows (the slice after
the detected header row), given the mapped column indices. -/
def extractL3 (nameIdx priceIdx : Nat) (stockIdx : Option Nat) (rows : List Row) :
    List L3Product :=
  (rows.foldl (extractStep nameIdx priceIdx stockIdx) ("", [])).2

/-! ### Validation and normalization layer -/

/-- `ExtractedProduct` (pydantic model): the canonical validated record. -/
structure ExtractedProduct where
  full_name : String
  price : Option ℚ
  stock : String
deriving DecidableEq, Repr

/-- A raw candidate dictionary as produced by any level, before
`_normalize_product_structure`: either `full_name` or `name` may carry the
name; price may be absent, already numeric, or a string to clean. -/
structure RawProduct where
  full_name : Option String
  name : Option String
  priceNum : Option ℚ
  priceStr : Option String
  stock : Option String
deriving Repr

/-- `_normalize_product_structure`. A present numeric price is kept as a
float; a present string price goes through `_clean_price`; a missing one is
`None`. Stock defaults to `"в наличии"`. -/
def normalizeProduct (item : RawProduct) : ExtractedProduct :=
  let nameVal :=
    match item.full_name with
    | some s => pyStrip s
    | none =>
        match item.name with
        | some s => pyStrip s
        | none => ""
  let priceVal :=
    match item.priceNum with
    | some q => some q
    | none =>
        match item.priceStr with
        | some s => cleanPriceL2 (some s)
        | none => none
  let stockVal :=
    match item.stock with
    | some s => cleanStockL2 (some s)
    | none => "в наличии"
  ⟨nameVal, priceVal, stockVal⟩

/-- The service/boilerplate word list of `_is_quality_product`. -/
def serviceWords : List String :=
  ["nan", "none", "null", "undefined", "наименование", "товар", "продукт",
   "название", "описание", "итого", "всего", "сумма", "total", "sum",
   "заголовок", "header", "title", "примечание", "note", "комментарий"]

/-- `_is_quality_product`: the quality gate of the price-list cascade. -/
def isQualityProduct (p : ExtractedProduct) : Bool :=
  let name := pyStrip (pyLower p.full_name)
  if name.length < 3 then false
  else if serviceWords.contains name then false
  else if (pySplit name).length < 2 && !(name.data.any Char.isDigit) then false
  else if (match p.price with
           | some pr => pr < 0 || pr > 10000000
           | none => false) then false
  else if (name.data.filter (fun c => c ≠ ' ')).length < 3 then false
  else true

/-- Deduplication key of `_remove_duplicates`. The source concatenates
`f"{name_key}|{price_key}|{stock_key}"`; as `str()` is injective on
`Optional[float]` and neither `str(price)` nor any normalized stock string
contains `'|'`, that string key separates exactly the same items as the
triple itself, which we use directly. -/
def dedupKey (p : ExtractedProduct) : String × Option ℚ × String :=
  (pyStrip (pyLower p.full_name), p.price, p.stock)

/-- The seen-set loop of `_remove_duplicates`, in recursive form. -/
def dedupAux (seen : List (String × Option ℚ × String))
    (acc : List ExtractedProduct) : List ExtractedProduct → List ExtractedProduct
  | [] => acc
  | p :: ps =>
      if dedupKey p ∈ seen then dedupAux seen acc ps
      else dedupAux (seen ++ [dedupKey p]) (acc ++ [p]) ps

/-- `_remove_duplicates`. -/
def removeDuplicates (ps : List ExtractedProduct) : List ExtractedProduct :=
  dedupAux [] [] ps

/-- Pydantic validation of a normalized item (`ExtractedProduct(**item)`):
the only constraint is `full_name: min_length=3`. -/
def pydanticOk (p : ExtractedProduct) : Bool :=
  3 ≤ p.full_name.length

/-- `_validate_and_clean_products`: normalize, schema-validate, apply the
quality gate, deduplicate. -/
def validateAndCleanProducts (items : List RawProduct) : List ExtractedProduct :=
  removeDuplicates
    (((items.map normalizeProduct).filter pydanticOk).filter isQualityProduct)

/-! ### Cascade controller (`process_file_cascade`) -/

/-- The success/products pair a level reports. -/
structure LevelOut (α : Type) where
  ok : Bool
  items : List α
deriving Repr

/-- Python `max(results, key=len)` returns the first maximal entry. -/
def bestOf {α : Type} (cands : List (Nat × LevelOut α)) : Option (Nat × LevelOut α) :=
  cands.foldl
    (fun best c =>
      match best with
      | none => some c
      | some b => if c.2.items.length > b.2.items.length then some c else some b)
    none

/-- File extensions for which the price-list cascade runs Level 1. -/
def levelOneExts : List String := [".xlsx", ".xls"]

/-- `CascadeProcessor.process_file_cascade`, with the three level bodies
abstracted as their reported results; returns the chosen result and the
list of level numbers that were invoked, in order. -/
def processFileCascade {α : Type} (ext : String) (l1 l2 l3 : LevelOut α) :
    LevelOut α × List Nat :=
  let defaultRes : LevelOut α := ⟨false, []⟩
  let r1 := if levelOneExts.contains ext then l1 else defaultRes
  let run1 : List Nat := if levelOneExts.contains ext then [1] else []
  if r1.ok ∧ 5 ≤ r1.items.length then (r1, run1)
  else if l2.ok ∧ 3 ≤ l2.items.length then (l2, run1 ++ [2])
  else if l3.ok ∧ 0 < l3.items.length then (l3, run1 ++ [2, 3])
  else
    let cands :=
      (if r1.ok then [(1, r1)] else []) ++
      (if l2.ok then [(2, l2)] else []) ++
      (if l3.ok then [(3, l3)] else [])
    match bestOf cands with
    | some b => (b.2, run1 ++ [2, 3])
    | none => (defaultRes, run1 ++ [2, 3])

/-- File extensions for which the client-request cascade runs Level 1. -/
def clientLevelOneExts : List String := [".xlsx", ".xls", ".pdf", ".docx"]

/-- `ClientRequestExtractor.process_client_request_file_cascade`, with the
same abstraction; Level 1 and Level 2 success thresholds are 1 item. -/
def processClientCascade {α : Type} (ext : String) (l1 l2 l3 : LevelOut α) :
    LevelOut α × List Nat :=
  let defaultRes : LevelOut α := ⟨false, []⟩
  let r1 := if clientLevelOneExts.contains ext then l1 else defaultRes
  let run1 : List Nat := if clientLevelOneExts.contains ext then [1] else []
  if r1.ok ∧ 1 ≤ r1.items.length then (r1, run1)
  else if l2.ok ∧ 1 ≤ l2.items.length then (l2, run1 ++ [2])
  else if l3.ok ∧ 0 < l3.items.length then (l3, run1 ++ [2, 3])
  else
    let cands :=
      (if r1.ok then [(1, r1)] else []) ++
      (if l2.ok then [(2, l2)] else []) ++
      (if l3.ok then [(3, l3)] else [])
    match bestOf cands with
    | some b => (b.2, run1 ++ [2, 3])
    | none => (defaultRes, run1 ++ [2, 3])

/-! ### Level 2 structure-map validation (`PriceListMap`, C6) -/

/-- A validated `ColumnMap`. -/
structure ColumnMap where
  price_col_index : Option Int
  stock_col_index : Option Int
  name_parts_col_indices : List Int
deriving DecidableEq, Repr

/-- A validated `PriceListMap`. -/
structure PriceListMap where
  header_row_index : Int
  data_start_row_index : Int
  column_map : ColumnMap
deriving DecidableEq, Repr

/-- The raw JSON-shaped column map the model returns: every field may be
absent. -/
structure RawColumnMap where
  price_col_index : Option Int
  stock_col_index : Option Int
  name_parts_col_indices : Option (List Int)
deriving DecidableEq, Repr

/-- The raw JSON-shaped structure map. -/
structure RawPriceListMap where
  header_row_index : Option Int
  data_start_row_index : Option Int
  column_map : Option RawColumnMap
deriving DecidableEq, Repr

/-- Pydantic validation `PriceListMap(**structure_map)`: the two row indices
and the column map are required, and `name_parts_col_indices` is required
with `min_items=1`; `price_col_index`/`stock_col_index` default to `None`.
No other constraint is checked. -/
def validatePriceListMap (m : RawPriceListMap) : Option PriceListMap :=
  match m.header_row_index, m.data_start_row_index, m.column_map with
  | some h, some d, some cm =>
      match cm.name_parts_col_indices with
      | some idxs =>
          if 1 ≤ idxs.length then
            some ⟨h, d, ⟨cm.price_col_index, cm.stock_col_index, idxs⟩⟩
          else none
      | none => none
  | _, _, _ => none

/-! ### Client-request validation (`client_request_extractor.py`) -/

/-- `ClientRequestedItem` (pydantic): name with `min_length=3`, quantity with
`ge=0`. -/
structure ClientRequestedItem where
  full_name : String
  quantity : Int
deriving DecidableEq, Repr

/-- A raw candidate dictionary for the client cascade. -/
structure RawClientItem where
  full_name : Option String
  name : Option String
  quantity : Option Int
deriving Repr

/-- The normalization performed inline in `_validate_and_clean_client_items`:
`full_name` from `full_name` or `name` (default `""`), stripped; quantity
defaults to 0. -/
def normalizeClientItem (item : RawClientItem) : ClientRequestedItem :=
  let nameVal :=
    match item.full_name with
    | some s => pyStrip s
    | none =>
        match item.name with
        | some s => pyStrip s
        | none => ""
  ⟨nameVal, item.quantity.getD 0⟩

/-- Pydantic validation of a client item: `min_length=3` and `ge=0`. -/
def clientPydanticOk (it : ClientRequestedItem) : Bool :=
  3 ≤ it.full_name.length && 0 ≤ it.quantity

/-- Service words of `_is_quality_client_item` (the price-list list plus four
client-specific entries). -/
def clientServiceWords : List String :=
  serviceWords ++ ["список", "позиция", "артикул", "счет"]

/-- `_is_quality_client_item`. -/
def isQualityClientItem (it : ClientRequestedItem) : Bool :=
  let name := pyStrip (pyLower it.full_name)
  if name.length < 3 then false
  else if clientServiceWords.contains name ||
      ((pySplit name).length < 2 && !(name.data.any Char.isDigit)) then false
  else if !(0 < it.quantity && it.quantity ≤ 1000000) then false
  else true

/-- Deduplication key of `_remove_client_item_duplicates` (name and
quantity). -/
def clientDedupKey (it : ClientRequestedItem) : String × Int :=
  (pyStrip (pyLower it.full_name), it.quantity)

/-- The seen-set loop of `_remove_client_item_duplicates`. -/
def clientDedupAux (seen : List (String × Int)) (acc : List ClientRequestedItem) :
    List ClientRequestedItem → List ClientRequestedItem
  | [] => acc
  | p :: ps =>
      if clientDedupKey p ∈ seen then clientDedupAux seen acc ps
      else clientDedupAux (seen ++ [clientDedupKey p]) (acc ++ [p]) ps

/-- `_remove_client_item_duplicates`. -/
def removeClientDuplicates (ps : List ClientRequestedItem) : List ClientRequestedItem :=
  clientDedupAux [] [] ps

/-- `_validate_and_clean_client_items`. -/
def validateAndCleanClientItems (items : List RawClientItem) : List ClientRequestedItem :=
  removeClientDuplicates
    (((items.map normalizeClientItem).filter clientPydanticOk).filter isQualityClientItem)

/-- Scenario grid for the Level 3 subheader test: the data rows below a
header mapped to name column 0, price column 2, stock column 3 — one
subheader row (only the name cell non-empty) followed by two data rows. -/
def demoGridC7 : List Row :=
  [[some "Задвижки чугунные", none, none, none],
   [some "30ч6бр Ду50", some "50", some "3500", some "10"],
   [some "30ч6бр Ду80", some "80", some "4500,50", some "есть"]]

/-! ## Helper lemmas: Python `strip` -/

theorem dropWhile_cons_false (p : Char → Bool) :
    ∀ (l : List Char) (c : Char) (t : List Char), l.dropWhile p = c :: t → p c = false := by
  intro l
  induction l with
  | nil => intro c t h; simp [List.dropWhile] at h
  | cons a as ih =>
    intro c t h
    rw [List.dropWhile_cons] at h
    split at h
    · exact ih c t h
    · cases h; simpa using ‹¬ p a = true›

theorem stripL_append_dropWhile (l : List Char) :
    stripL l ++ ((l.dropWhile pyIsSpace).reverse.takeWhile pyIsSpace).reverse =
      l.dropWhile pyIsSpace := by
  conv_rhs => rw [← List.reverse_reverse (l.dropWhile pyIsSpace)]
  conv_rhs =>
    rw [← List.takeWhile_append_dropWhile (p := pyIsSpace)
          (l := (l.dropWhile pyIsSpace).reverse)]
  rw [List.reverse_append, stripL]

theorem stripL_decomposition (l : List Char) :
    ∃ lead trail, l = lead ++ stripL l ++ trail ∧
      (∀ c ∈ lead, pyIsSpace c = true) ∧ (∀ c ∈ trail, pyIsSpace c = true) := by
  refine ⟨l.takeWhile pyIsSpace,
    ((l.dropWhile pyIsSpace).reverse.takeWhile pyIsSpace).reverse, ?_, ?_, ?_⟩
  · conv_lhs => rw [← List.takeWhile_append_dropWhile (p := pyIsSpace) (l := l)]
    rw [List.append_assoc, stripL_append_dropWhile]
  · intro c hc; exact List.mem_takeWhile_imp hc
  · intro c hc
    rw [List.mem_reverse] at hc
    exact List.mem_takeWhile_imp hc

theorem stripL_head_false (l : List Char) (c : Char) (t : List Char)
    (h : stripL l = c :: t) : pyIsSpace c = false := by
  have hm := stripL_append_dropWhile l
  rw [h] at hm
  exact dropWhile_cons_false pyIsSpace l c _ hm.symm

theorem stripL_reverse_head_false (l : List Char) (c : Char) (t : List Char)
    (h : (stripL l).reverse = c :: t) : pyIsSpace c = false := by
  rw [stripL, List.reverse_reverse] at h
  exact dropWhile_cons_false pyIsSpace _ c t h

theorem dropWhile_self_of_head_false (p : Char → Bool) (l : List Char)
    (h : ∀ c t, l = c :: t → p c = false) : l.dropWhile p = l := by
  cases l with
  | nil => rfl
  | cons a as =>
    rw [List.dropWhile_cons]
    simp [h a as rfl]

theorem stripL_idem (l : List Char) : stripL (stripL l) = stripL l := by
  have h1 : (stripL l).dropWhile pyIsSpace = stripL l :=
    dropWhile_self_of_head_false _ _ (fun c t h => stripL_head_false l c t h)
  have h2 : (stripL l).reverse.dropWhile pyIsSpace = (stripL l).reverse :=
    dropWhile_self_of_head_false _ _ (fun c t h => stripL_reverse_head_false l c t h)
  rw [stripL, h1, h2, List.reverse_reverse]

theorem pyStrip_idem (s : String) : pyStrip (pyStrip s) = pyStrip s := by
  show String.mk (stripL (stripL s.data)) = String.mk (stripL s.data)
  rw [stripL_idem]

theorem filter_stripL (q : Char → Bool) (hq : ∀ c, pyIsSpace c = true → q c = false)
    (l : List Char) : (stripL l).filter q = l.filter q := by
  obtain ⟨lead, trail, hdec, hlead, htrail⟩ := stripL_decomposition l
  conv_rhs => rw [hdec]
  rw [List.filter_append, List.filter_append]
  have h1 : lead.filter q = [] :=
    List.filter_eq_nil_iff.mpr (fun c hc => by simp [hq c (hlead c hc)])
  have h2 : trail.filter q = [] :=
    List.filter_eq_nil_iff.mpr (fun c hc => by simp [hq c (htrail c hc)])
  rw [h1, h2, List.nil_append, List.append_nil]

theorem mem_stripL (c : Char) (hc : pyIsSpace c = false) (l : List Char) :
    c ∈ stripL l ↔ c ∈ l := by
  obtain ⟨lead, trail, hdec, hlead, htrail⟩ := stripL_decomposition l
  constructor
  · intro h; rw [hdec]; simp [h]
  · intro h
    rw [hdec] at h
    rcases List.mem_append.mp h with h' | h'
    · rcases List.mem_append.mp h' with h'' | h''
      · exact absurd (hlead c h'') (by simp [hc])
      · exact h''
    · exact absurd (htrail c h') (by simp [hc])

/-! ## Helper lemmas: filters and the comma map -/

theorem keepDigitDot_commaToDot (c : Char) :
    keepDigitDot (commaToDot c) = keepDigitCommaDot c := by
  by_cases h : c = ','
  · subst h; decide
  · simp [commaToDot, keepDigitDot, keepDigitCommaDot, h]

theorem filter_map_commaToDot (l : List Char) :
    (l.map commaToDot).filter keepDigitDot = (l.filter keepDigitCommaDot).map commaToDot := by
  rw [List.filter_map]
  congr 1
  apply List.filter_congr
  intro c _
  exact keepDigitDot_commaToDot c

theorem filter_absorb (q1 q2 : Char → Bool) (h : ∀ c, q2 c = true → q1 c = true)
    (l : List Char) : (l.filter q1).filter q2 = l.filter q2 := by
  rw [List.filter_filter]
  apply List.filter_congr
  intro c _
  by_cases h2 : q2 c
  · simp [h2, h c h2]
  · simp [h2]

theorem pyIsSpace_keepDigitCommaDot (c : Char) (h : pyIsSpace c = true) :
    keepDigitCommaDot c = false := by
  simp only [pyIsSpace, Bool.or_eq_true, decide_eq_true_eq] at h
  rcases h with ((((((h | h) | h) | h) | h) | h) | h) <;> subst h <;> decide

theorem keepDigitCommaDot_notSpaceNbsp (c : Char) (h : keepDigitCommaDot c = true) :
    notSpaceNbsp c = true := by
  by_cases h1 : c = ' '
  · subst h1; exact absurd h (by decide)
  · by_cases h2 : c = '\u00A0'
    · subst h2; exact absurd h (by decide)
    · simp [notSpaceNbsp, h1, h2]

/-! ## Helper lemmas: deduplication loops -/

theorem mem_dedupAux (ps : List ExtractedProduct) :
    ∀ seen acc x, x ∈ dedupAux seen acc ps → x ∈ acc ∨ x ∈ ps := by
  induction ps with
  | nil => intro seen acc x h; exact Or.inl h
  | cons p ps ih =>
    intro seen acc x h
    rw [dedupAux] at h
    split at h
    · rcases ih _ _ _ h with h' | h'
      · exact Or.inl h'
      · exact Or.inr (List.mem_cons_of_mem _ h')
    · rcases ih _ _ _ h with h' | h'
      · rcases List.mem_append.mp h' with h'' | h''
        · exact Or.inl h''
        · simp at h''; subst h''; exact Or.inr (List.mem_cons_self _ _)
      · exact Or.inr (List.mem_cons_of_mem _ h')

theorem acc_subset_dedupAux (ps : List ExtractedProduct) :
    ∀ seen acc, acc ⊆ dedupAux seen acc ps := by
  induction ps with
  | nil => intro seen acc; rw [dedupAux]; exact fun _ h => h
  | cons p ps ih =>
    intro seen acc
    rw [dedupAux]
    split
    · exact ih _ _
    · exact List.Subset.trans (List.subset_append_left _ _) (ih _ _)

theorem pairwise_dedupAux (ps : List ExtractedProduct) :
    ∀ seen acc, (∀ a ∈ acc, dedupKey a ∈ seen) →
      acc.Pairwise (fun a b => dedupKey a ≠ dedupKey b) →
      (dedupAux seen acc ps).Pairwise (fun a b => dedupKey a ≠ dedupKey b) := by
  induction ps with
  | nil => intro seen acc _ hacc; exact hacc
  | cons p ps ih =>
    intro seen acc hsub hacc
    rw [dedupAux]
    split
    · exact ih _ _ hsub hacc
    · rename_i hnot
      apply ih
      · intro a ha
        rcases List.mem_append.mp ha with h' | h'
        · exact List.mem_append.mpr (Or.inl (hsub a h'))
        · simp at h'; subst h'; exact List.mem_append.mpr (Or.inr (by simp))
      · rw [List.pairwise_append]
        refine ⟨hacc, by simp, ?_⟩
        intro a ha b hb
        simp at hb; subst hb
        intro hk
        exact hnot (hk ▸ hsub a ha)

theorem keyset_dedupAux (ps : List ExtractedProduct) :
    ∀ seen acc x, x ∈ ps → dedupKey x ∉ seen →
      ∃ y ∈ dedupAux seen acc ps, dedupKey y = dedupKey x := by
  induction ps with
  | nil => intro seen acc x h; simp at h
  | cons p ps ih =>
    intro seen acc x hx hns
    rw [dedupAux]
    split
    · rename_i hin
      rcases List.mem_cons.mp hx with h' | h'
      · exact absurd (h' ▸ hin) hns
      · exact ih _ _ x h' hns
    · rename_i hnin
      by_cases hk : dedupKey x = dedupKey p
      · refine ⟨p, acc_subset_dedupAux ps _ _ (by simp), hk.symm⟩
      · rcases List.mem_cons.mp hx with h' | h'
        · exact absurd (congrArg dedupKey h') hk
        · apply ih _ _ x h'
          intro hmem
          rcases List.mem_append.mp hmem with h'' | h''
          · exact hns h''
          · simp at h''; exact hk h''

theorem find_dedupAux (ps : List ExtractedProduct) :
    ∀ seen acc x, x ∈ dedupAux seen acc ps →
      x ∈ acc ∨
      (ps.find? (fun a => decide (dedupKey a = dedupKey x)) = some x ∧ dedupKey x ∉ seen) := by
  induction ps with
  | nil => intro seen acc x h; exact Or.inl h
  | cons p ps ih =>
    intro seen acc x h
    rw [dedupAux] at h
    split at h
    · rename_i hin
      rcases ih _ _ _ h with h' | ⟨hf, hk⟩
      · exact Or.inl h'
      · have hne : dedupKey p ≠ dedupKey x := fun he => hk (he ▸ hin)
        refine Or.inr ⟨?_, hk⟩
        rw [List.find?_cons]
        simp [hne]
        exact hf
    · rename_i hnin
      rcases ih _ _ _ h with h' | ⟨hf, hk⟩
      · rcases List.mem_append.mp h' with h'' | h''
        · exact Or.inl h''
        · simp at h''
          subst h''
          refine Or.inr ⟨?_, hnin⟩
          rw [List.find?_cons]
          simp
      · have hne : dedupKey p ≠ dedupKey x := by
          intro he
          exact hk (List.mem_append.mpr (Or.inr (by simp [he])))
        have hns : dedupKey x ∉ seen := fun hmem => hk (List.mem_append.mpr (Or.inl hmem))
        refine Or.inr ⟨?_, hns⟩
        rw [List.find?_cons]
        simp [hne]
        exact hf

theorem mem_clientDedupAux (ps : List ClientRequestedItem) :
    ∀ seen acc x, x ∈ clientDedupAux seen acc ps → x ∈ acc ∨ x ∈ ps := by
  induction ps with
  | nil => intro seen acc x h; exact Or.inl h
  | cons p ps ih =>
    intro seen acc x h
    rw [clientDedupAux] at h
    split at h
    · rcases ih _ _ _ h with h' | h'
      · exact Or.inl h'
      · exact Or.inr (List.mem_cons_of_mem _ h')
    · rcases ih _ _ _ h with h' | h'
      · rcases List.mem_append.mp h' with h'' | h''
        · exact Or.inl h''
        · simp at h''; subst h''; exact Or.inr (List.mem_cons_self _ _)
      · exact Or.inr (List.mem_cons_of_mem _ h')

/-! ## Helper lemmas: normal forms of the two price cleaners -/

theorem cleanPriceL2_some (s : String) :
    cleanPriceL2 (some s) = floatOfClean ((s.data.filter keepDigitCommaDot).map commaToDot) :=
  rfl

theorem priceExcluded_filter_nil (s : String) (h : priceExcluded (pyStrip s) = true) :
    s.data.filter keepDigitCommaDot = [] := by
  have hs : s.data.filter keepDigitCommaDot = (stripL s.data).filter keepDigitCommaDot :=
    (filter_stripL _ pyIsSpace_keepDigitCommaDot _).symm
  rw [hs, show stripL s.data = (pyStrip s).data from rfl]
  simp only [priceExcluded, Bool.or_eq_true, decide_eq_true_eq] at h
  rcases h with (((h | h) | h) | h) <;> rw [h] <;> decide

theorem pyIsSpace_keepDigitComma (c : Char) (h : pyIsSpace c = true) :
    keepDigitComma c = false := by
  simp only [pyIsSpace, Bool.or_eq_true, decide_eq_true_eq] at h
  rcases h with ((((((h | h) | h) | h) | h) | h) | h) <;> subst h <;> decide

theorem keepDigitComma_notSpaceNbsp (c : Char) (h : keepDigitComma c = true) :
    notSpaceNbsp c = true := by
  by_cases h1 : c = ' '
  · subst h1; exact absurd h (by decide)
  · by_cases h2 : c = '\u00A0'
    · subst h2; exact absurd h (by decide)
    · simp [notSpaceNbsp, h1, h2]

theorem filter_neqDot_keep (l : List Char) :
    ((l.filter (fun c => c ≠ '.')).filter keepDigitCommaDot) = l.filter keepDigitComma := by
  rw [List.filter_filter]
  apply List.filter_congr
  intro c _
  by_cases h1 : c = '.'
  · subst h1; decide
  · by_cases h2 : c = ','
    · subst h2; decide
    · simp [keepDigitCommaDot, keepDigitComma, h1, h2]

theorem mixedSeps_noSpace (s : String) :
    mixedSeps ((pyStrip s).data.filter notSpaceNbsp) = mixedSeps s.data := by
  unfold mixedSeps
  have hmem : ∀ a : Char, notSpaceNbsp a = true → pyIsSpace a = false →
      (((pyStrip s).data.filter notSpaceNbsp).contains a = (s.data.contains a)) := by
    intro a ha hsp
    have h1 : a ∈ (pyStrip s).data.filter notSpaceNbsp ↔ a ∈ (pyStrip s).data := by
      rw [List.mem_filter]
      exact ⟨fun h => h.1, fun h => ⟨h, ha⟩⟩
    have h2 : a ∈ (pyStrip s).data ↔ a ∈ s.data :=
      mem_stripL a hsp s.data
    rw [Bool.eq_iff_iff, List.elem_iff, List.elem_iff]
    exact h1.trans h2
  rw [hmem ',' (by decide) (by decide), hmem '.' (by decide) (by decide)]

theorem cleanedL3_unmixed (s : String) :
    (((pyStrip s).data.filter notSpaceNbsp).map commaToDot).filter keepDigitDot =
      (s.data.filter keepDigitCommaDot).map commaToDot := by
  rw [filter_map_commaToDot,
    filter_absorb notSpaceNbsp keepDigitCommaDot keepDigitCommaDot_notSpaceNbsp]
  congr 1
  exact filter_stripL _ pyIsSpace_keepDigitCommaDot _

theorem cleanedL3_mixed (s : String) :
    ((((pyStrip s).data.filter notSpaceNbsp).filter (fun c => c ≠ '.')).map commaToDot).filter
        keepDigitDot =
      (s.data.filter keepDigitComma).map commaToDot := by
  rw [filter_map_commaToDot, filter_neqDot_keep,
    filter_absorb notSpaceNbsp keepDigitComma keepDigitComma_notSpaceNbsp]
  congr 1
  exact filter_stripL _ pyIsSpace_keepDigitComma _

theorem cleanPriceCellL3_not_excluded (s : String)
    (hg : priceExcluded (pyStrip s) = false) :
    cleanPriceCellL3 (some s) =
      (floatOfClean
        (if mixedSeps s.data then (s.data.filter keepDigitComma).map commaToDot
         else (s.data.filter keepDigitCommaDot).map commaToDot)).getD 0 := by
  show (let raw := pyStrip s
    if priceExcluded raw then (0 : ℚ)
    else
      let noSpace := raw.data.filter notSpaceNbsp
      let conv :=
        if mixedSeps noSpace then (noSpace.filter (fun c => c ≠ '.')).map commaToDot
        else noSpace.map commaToDot
      match floatOfClean (conv.filter keepDigitDot) with
      | some v => v
      | none => 0) = _
  simp only [hg, Bool.false_eq_true, if_false, mixedSeps_noSpace]
  by_cases hm : mixedSeps s.data
  · rw [if_pos hm, cleanedL3_mixed]
    cases hfc : floatOfClean ((s.data.filter keepDigitComma).map commaToDot) <;>
      simp [hm, hfc]
  · rw [if_neg hm, cleanedL3_unmixed]
    cases hfc : floatOfClean ((s.data.filter keepDigitCommaDot).map commaToDot) <;>
      simp [hm, hfc]

theorem priceExcluded_false_of_comma (s : String) (h : ',' ∈ s.data) :
    priceExcluded (pyStrip s) = false := by
  have hmem : ',' ∈ (pyStrip s).data := (mem_stripL ',' (by decide) s.data).mpr h
  cases hp : priceExcluded (pyStrip s)
  · rfl
  · exfalso
    simp only [priceExcluded, Bool.or_eq_true, decide_eq_true_eq] at hp
    rcases hp with (((h' | h') | h') | h') <;> rw [h'] at hmem <;> exact absurd hmem (by decide)

/-- C4 (corrected): in the Level 3 price cleaning, spaces and non-breaking
spaces are stripped and the scenario prices parse as claimed, but when both
`','` and `'.'` occur the code always treats the comma as the decimal
separator and removes every dot as a thousands separator — the parse is the
same as if all dots were deleted from the text, regardless of which
separator occurs last; an unparseable price still yields a retained row with
price 0. -/
theorem C4_separator_resolution :
    (∀ s : String, ',' ∈ s.data → '.' ∈ s.data →
       cleanPriceCellL3 (some s) =
         cleanPriceCellL3 (some (String.mk (s.data.filter (fun c => c ≠ '.'))))) ∧
    cleanPriceCellL3 (some "1 234,56") = 123456 / 100 ∧
    cleanPriceCellL3 (some "1.234,56") = 123456 / 100 ∧
    cleanPriceCellL3 (some "1,234.56") = 123456 / 100000 ∧
    extractL3 0 1 none [[some "Кран шаровой 11б27п", some "договорная"]] =
      [⟨"Кран шаровой 11б27п", 0, 100⟩] := by
  refine ⟨?_, ?_, ?_, ?_, by decide⟩
  · intro s h1 h2
    have hg := priceExcluded_false_of_comma s h1
    have h1f : ',' ∈ s.data.filter (fun c => c ≠ '.') :=
      List.mem_filter.mpr ⟨h1, by decide⟩
    have hg' := priceExcluded_false_of_comma (String.mk (s.data.filter (fun c => c ≠ '.'))) h1f
    rw [cleanPriceCellL3_not_excluded s hg,
      cleanPriceCellL3_not_excluded (String.mk (s.data.filter (fun c => c ≠ '.'))) hg']
    have hm : mixedSeps s.data = true := by
      simp only [mixedSeps, Bool.and_eq_true, List.elem_iff]
      exact ⟨h1, h2⟩
    have hdot : ((String.mk (s.data.filter (fun c => c ≠ '.'))).data).contains '.' = false := by
      rw [Bool.eq_false_iff]
      intro hc
      have := List.mem_filter.mp (List.elem_iff.mp hc)
      simp at this
    have hm' : mixedSeps (String.mk (s.data.filter (fun c => c ≠ '.'))).data = false := by
      simp [mixedSeps, hdot]
    rw [if_pos hm, if_neg (by simpa using hm')]
    show _ = (floatOfClean (((s.data.filter (fun c => c ≠ '.')).filter keepDigitCommaDot).map
      commaToDot)).getD 0
    rw [filter_neqDot_keep]
  · rw [cleanPriceCellL3_not_excluded _ (by decide), if_neg (by decide)]
    show (parseDigits ['1', '2', '3', '4'] : ℚ) +
        (parseDigits ['5', '6'] : ℚ) / (10 : ℚ) ^ (['5', '6'] : List Char).length = 123456 / 100
    rw [show parseDigits ['1', '2', '3', '4'] = 1234 from rfl,
      show parseDigits ['5', '6'] = 56 from rfl]
    norm_num
  · rw [cleanPriceCellL3_not_excluded _ (by decide), if_pos (by decide)]
    show (parseDigits ['1', '2', '3', '4'] : ℚ) +
        (parseDigits ['5', '6'] : ℚ) / (10 : ℚ) ^ (['5', '6'] : List Char).length = 123456 / 100
    rw [show parseDigits ['1', '2', '3', '4'] = 1234 from rfl,
      show parseDigits ['5', '6'] = 56 from rfl]
    norm_num
  · rw [cleanPriceCellL3_not_excluded _ (by decide), if_pos (by decide)]
    show (parseDigits ['1'] : ℚ) +
        (parseDigits ['2', '3', '4', '5', '6'] : ℚ) /
          (10 : ℚ) ^ (['2', '3', '4', '5', '6'] : List Char).length = 123456 / 100000
    rw [show parseDigits ['1'] = 1 from rfl,
      show parseDigits ['2', '3', '4', '5', '6'] = 23456 from rfl]
    norm_num

/-- C4 counterexample: the claim says that when both `','` and `'.'` are
present the *last occurring* separator is the decimal one, so `"1,234.56"`
should parse to `1234.56`; the code parses it to `1.23456`. -/
theorem C4_counterexample :
    cleanPriceCellL3 (some "1,234.56") = 123456 / 100000 ∧
    (123456 / 100000 : ℚ) ≠ 123456 / 100 := by
  constructor
  · rw [cleanPriceCellL3_not_excluded _ (by decide), if_pos (by decide)]
    show (parseDigits ['1'] : ℚ) +
        (parseDigits ['2', '3', '4', '5', '6'] : ℚ) /
          (10 : ℚ) ^ (['2', '3', '4', '5', '6'] : List Char).length = 123456 / 100000
    rw [show parseDigits ['1'] = 1 from rfl,
      show parseDigits ['2', '3', '4', '5', '6'] = 23456 from rfl]
    norm_num
  · norm_num

/-- C4 witness: the general mixed-separator conjunct applied at
`"1.234,56"`. -/
theorem C4_witness :
    ',' ∈ "1.234,56".data ∧ '.' ∈ "1.234,56".data ∧
    cleanPriceCellL3 (some "1.234,56") =
      cleanPriceCellL3 (some (String.mk ("1.234,56".data.filter (fun c => c ≠ '.')))) :=
  ⟨by decide, by decide, C4_separator_resolution.1 "1.234,56" (by decide) (by decide)⟩

/-- C9 (corrected): the Level 2 `_clean_price` agrees with the Level 3 price
cleaning (with `None` read as the retained 0) exactly on cells whose text
does not contain both `','` and `'.'`; on mixed-separator texts the two
levels disagree, and the stock cleaners do not compute the same results at
all (Level 2 produces canonical strings, Level 3 numeric sentinels). -/
theorem C9_price_cleaning_agreement (cell : Option String)
    (h : ∀ s, cell = some s → mixedSeps s.data = false) :
    cleanPriceCellL3 cell = (cleanPriceL2 cell).getD 0 := by
  cases cell with
  | none => decide
  | some s =>
    by_cases hg : priceExcluded (pyStrip s) = true
    · have hnil := priceExcluded_filter_nil s hg
      have h2 : cleanPriceL2 (some s) = none := by
        rw [cleanPriceL2_some, hnil]
        rfl
      rw [h2]
      show cleanPriceCellL3 (some s) = 0
      show (let raw := pyStrip s
        if priceExcluded raw then (0 : ℚ)
        else
          let noSpace := raw.data.filter notSpaceNbsp
          let conv :=
            if mixedSeps noSpace then (noSpace.filter (fun c => c ≠ '.')).map commaToDot
            else noSpace.map commaToDot
          match floatOfClean (conv.filter keepDigitDot) with
          | some v => v
          | none => 0) = 0
      simp only [hg, if_true]
    · rw [cleanPriceCellL3_not_excluded s (by simpa using hg)]
      rw [h s rfl, cleanPriceL2_some]
      simp

/-- C9 counterexample: on `"1.234,56"` Level 2 yields `None` (its naive
comma-to-dot conversion leaves two dots) while Level 3 parses `1234.56`; on
the stock side Level 2 maps `"есть"` to the string `"в наличии"` while
Level 3 maps it to the number 100. -/
theorem C9_counterexample :
    cleanPriceL2 (some "1.234,56") = none ∧
    cleanPriceCellL3 (some "1.234,56") = 123456 / 100 ∧
    cleanStockL2 (some "есть") = "в наличии" ∧
    stockCellL3 (some "есть") = 100 := by
  refine ⟨by decide, ?_, by decide, by decide⟩
  rw [cleanPriceCellL3_not_excluded _ (by decide), if_pos (by decide)]
  show (parseDigits ['1', '2', '3', '4'] : ℚ) +
      (parseDigits ['5', '6'] : ℚ) / (10 : ℚ) ^ (['5', '6'] : List Char).length = 123456 / 100
  rw [show parseDigits ['1', '2', '3', '4'] = 1234 from rfl,
    show parseDigits ['5', '6'] = 56 from rfl]
  norm_num

/-- C9 witness: the agreement theorem applied at the unmixed cell
`"1 234,56"`. -/
theorem C9_witness :
    mixedSeps "1 234,56".data = false ∧
    cleanPriceCellL3 (some "1 234,56") = (cleanPriceL2 (some "1 234,56")).getD 0 :=
  ⟨by decide,
   C9_price_cleaning_agreement (some "1 234,56")
     (fun s hs => by cases hs; decide)⟩

/-! ## Stock and subheader step lemmas -/

theorem extractStep_stock_none (nameIdx priceIdx : Nat) (st : String × List L3Product)
    (r : Row) (hst : ∀ p ∈ st.2, p.stock = 100) :
    ∀ p ∈ (extractStep nameIdx priceIdx none st r).2, p.stock = 100 := by
  intro p hp
  simp only [extractStep] at hp
  split at hp
  · exact hst p hp
  · split at hp
    · exact hst p hp
    · split at hp
      · rcases List.mem_append.mp hp with h | h
        · exact hst p h
        · simp at h
          subst h
          rfl
      · exact hst p hp

theorem extractL3_fold_stock_none (nameIdx priceIdx : Nat) :
    ∀ (rows : List Row) (st : String × List L3Product),
      (∀ p ∈ st.2, p.stock = 100) →
      ∀ p ∈ (rows.foldl (extractStep nameIdx priceIdx none) st).2, p.stock = 100 := by
  intro rows
  induction rows with
  | nil => intro st hst; exact hst
  | cons r rows ih =>
    intro st hst
    exact ih _ (extractStep_stock_none nameIdx priceIdx st r hst)

/-- C8: Level 3 stock classification — text containing an unavailability
keyword maps to 0; otherwise text containing an availability keyword maps to
the sentinel 100; otherwise the first embedded number is used, with 100 when
the text has no number; and 100 is used when the stock cell is missing or
the stock column is absent. -/
theorem C8_stock_classification :
    (∀ s : String, pyStrip (pyLower s) ≠ "nan" →
       (∃ w ∈ stockWordsL3No, strIn w (pyStrip (pyLower s)) = true) →
       stockOfRaw s = 0) ∧
    (∀ s : String,
       (∀ w ∈ stockWordsL3No, strIn w (pyStrip (pyLower s)) = false) →
       (∃ w ∈ stockWordsL3Yes, strIn w (pyStrip (pyLower s)) = true) →
       stockOfRaw s = 100) ∧
    (∀ s : String, pyStrip (pyLower s) ≠ "nan" →
       (∀ w ∈ stockWordsL3No, strIn w (pyStrip (pyLower s)) = false) →
       (∀ w ∈ stockWordsL3Yes, strIn w (pyStrip (pyLower s)) = false) →
       stockOfRaw s = ((firstNumRun (pyStrip (pyLower s)).data).map parseDigits).getD 100) ∧
    stockCellL3 none = 100 ∧
    (∀ (nameIdx priceIdx : Nat) (rows : List Row) (p : L3Product),
       p ∈ extractL3 nameIdx priceIdx none rows → p.stock = 100) := by
  have anyFalse : ∀ (ws : List String) (s : String),
      (∀ w ∈ ws, strIn w s = false) → (ws.any fun w => strIn w s) = false := by
    intro ws s h
    rw [List.any_eq_false]
    intro w hw
    rw [h w hw]
    exact Bool.false_ne_true
  refine ⟨?_, ?_, ?_, rfl, ?_⟩
  · intro s hnan hex
    obtain ⟨w, hw, hs⟩ := hex
    simp only [stockOfRaw]
    rw [if_neg hnan, if_pos (List.any_eq_true.mpr ⟨w, hw, hs⟩)]
  · intro s hno hex
    obtain ⟨w, hw, hs⟩ := hex
    by_cases hnan : pyStrip (pyLower s) = "nan"
    · simp only [stockOfRaw]
      rw [if_pos hnan]
    · simp only [stockOfRaw]
      have h1 := anyFalse _ _ hno
      rw [if_neg hnan, if_neg (fun h => Bool.false_ne_true (h1 ▸ h)),
        if_pos (List.any_eq_true.mpr ⟨w, hw, hs⟩)]
  · intro s hnan hno hyes
    simp only [stockOfRaw]
    have h1 := anyFalse _ _ hno
    have h2 := anyFalse _ _ hyes
    rw [if_neg hnan, if_neg (fun h => Bool.false_ne_true (h1 ▸ h)),
      if_neg (fun h => Bool.false_ne_true (h2 ▸ h))]
    cases hrun : firstNumRun (pyStrip (pyLower s)).data <;> simp [hrun]
  · intro nameIdx priceIdx rows p hp
    exact extractL3_fold_stock_none nameIdx priceIdx rows ("", []) (by simp) p hp

/-- C8 witness: the classification theorem applied at `"под заказ"`
(unavailable keyword), `"есть"` (available keyword), `"7 шт"` (first
embedded number), and a one-row grid without a stock column. -/
theorem C8_witness :
    (pyStrip (pyLower "под заказ") ≠ "nan" ∧ stockOfRaw "под заказ" = 0) ∧
    stockOfRaw "есть" = 100 ∧
    stockOfRaw "7 шт" =
      ((firstNumRun (pyStrip (pyLower "7 шт")).data).map parseDigits).getD 100 ∧
    (⟨"Кран Ду50", 5, 100⟩ : L3Product) ∈ extractL3 0 1 none [[some "Кран Ду50", some "5"]] ∧
    (⟨"Кран Ду50", 5, 100⟩ : L3Product).stock = 100 := by
  refine ⟨⟨by decide, ?_⟩, ?_, ?_, ?_, ?_⟩
  · exact C8_stock_classification.1 "под заказ" (by decide)
      ⟨"под заказ", by decide, by decide⟩
  · exact C8_stock_classification.2.1 "есть" (by decide) ⟨"есть", by decide, by decide⟩
  · exact C8_stock_classification.2.2.1 "7 шт" (by decide) (by decide) (by decide)
  · decide
  · exact C8_stock_classification.2.2.2.2 0 1 [[some "Кран Ду50", some "5"]]
      ⟨"Кран Ду50", 5, 100⟩ (by decide)

/-- C7: in the Level 3 extractor a row whose only non-empty cell is the name
cell is remembered as the running subheader and emits nothing; a data row
emits exactly one product whose name is the running subheader, a space, and
the own name of the row, stripped; on the scenario grid the subheader row
"Задвижки чугунные" followed by two data rows yields exactly two products,
both prefixed with "Задвижки чугунные". -/
theorem C7_subheader_prefixing :
    (∀ (nameIdx priceIdx : Nat) (stockIdx : Option Nat) (st : String × List L3Product)
       (r : Row),
       rowName r nameIdx ≠ "" → pyLower (rowName r nameIdx) ≠ "nan" →
       pyLower (rowName r nameIdx) ≠ "none" → isSubheaderRow r nameIdx = true →
       extractStep nameIdx priceIdx stockIdx st r = (rowName r nameIdx, st.2)) ∧
    (∀ (nameIdx priceIdx : Nat) (stockIdx : Option Nat) (st : String × List L3Product)
       (r : Row),
       rowName r nameIdx ≠ "" → pyLower (rowName r nameIdx) ≠ "nan" →
       pyLower (rowName r nameIdx) ≠ "none" → isSubheaderRow r nameIdx = false →
       pyStrip (st.1 ++ " " ++ rowName r nameIdx) ≠ "" →
       pyLower (pyStrip (st.1 ++ " " ++ rowName r nameIdx)) ≠ "nan" →
       extractStep nameIdx priceIdx stockIdx st r =
         (st.1, st.2 ++
           [⟨pyStrip (st.1 ++ " " ++ rowName r nameIdx),
             cleanPriceCellL3 (getCell r priceIdx),
             match stockIdx with
             | some si => stockCellL3 (getCell r si)
             | none => 100⟩])) ∧
    (extractL3 0 2 (some 3) demoGridC7).map L3Product.name =
      ["Задвижки чугунные 30ч6бр Ду50", "Задвижки чугунные 30ч6бр Ду80"] ∧
    (extractL3 0 2 (some 3) demoGridC7).map L3Product.stock = [0, 100] ∧
    (extractL3 0 2 (some 3) demoGridC7).map L3Product.price = [3500, 9001 / 2] := by
  refine ⟨?_, ?_, by decide, by decide, ?_⟩
  · intro nameIdx priceIdx stockIdx st r h1 h2 h3 h4
    simp only [extractStep]
    rw [if_neg (by rintro (h | h | h); exacts [h1 h, h2 h, h3 h]), if_pos h4]
  · intro nameIdx priceIdx stockIdx st r h1 h2 h3 h4 h5 h6
    simp only [extractStep]
    rw [if_neg (by rintro (h | h | h); exacts [h1 h, h2 h, h3 h]),
      if_neg (by rw [h4]; exact Bool.false_ne_true),
      if_pos ⟨h5, by rw [pyStrip_idem]; exact h5, h6⟩]
  · have hval : (extractL3 0 2 (some 3) demoGridC7).map L3Product.price =
        [(parseDigits ['3', '5', '0', '0'] : ℚ),
         (parseDigits ['4', '5', '0', '0'] : ℚ) +
           (parseDigits ['5', '0'] : ℚ) / (10 : ℚ) ^ (['5', '0'] : List Char).length] := rfl
    rw [hval, show parseDigits ['3', '5', '0', '0'] = 3500 from rfl,
      show parseDigits ['4', '5', '0', '0'] = 4500 from rfl,
      show parseDigits ['5', '0'] = 50 from rfl]
    norm_num [List.cons.injEq]

/-- C7 witness: the step conjuncts applied at the concrete subheader row and
the first data row of the scenario grid. -/
theorem C7_witness :
    extractStep 0 2 (some 3) ("", []) [some "Задвижки чугунные", none, none, none] =
      ("Задвижки чугунные", []) ∧
    extractStep 0 2 (some 3) ("Задвижки чугунные", [])
        [some "30ч6бр Ду50", some "50", some "3500", some "10"] =
      ("Задвижки чугунные",
       [⟨pyStrip ("Задвижки чугунные" ++ " " ++ "30ч6бр Ду50"),
         cleanPriceCellL3 (some "3500"), stockCellL3 (some "10")⟩]) := by
  constructor
  · have h := C7_subheader_prefixing.1 0 2 (some 3) ("", [])
      [some "Задвижки чугунные", none, none, none] (by decide) (by decide) (by decide)
      (by decide)
    simpa using h
  · have h := C7_subheader_prefixing.2.1 0 2 (some 3) ("Задвижки чугунные", [])
      [some "30ч6бр Ду50", some "50", some "3500", some "10"] (by decide) (by decide)
      (by decide) (by decide) (by decide) (by decide)
    simpa using h

/-! ## Validation-layer lemmas -/

theorem normalizeProduct_name_stripped (item : RawProduct) :
    pyStrip (normalizeProduct item).full_name = (normalizeProduct item).full_name := by
  show pyStrip (match item.full_name with
    | some s => pyStrip s
    | none => match item.name with | some s => pyStrip s | none => "") =
    (match item.full_name with
    | some s => pyStrip s
    | none => match item.name with | some s => pyStrip s | none => "")
  cases item.full_name with
  | some s => exact pyStrip_idem s
  | none =>
    cases item.name with
    | some s => exact pyStrip_idem s
    | none => decide

theorem isQualityProduct_conditions (p : ExtractedProduct) (h : isQualityProduct p = true) :
    ¬ (pyStrip (pyLower p.full_name)).length < 3 ∧
    pyStrip (pyLower p.full_name) ∉ serviceWords ∧
    ¬((pySplit (pyStrip (pyLower p.full_name))).length < 2 ∧
      (pyStrip (pyLower p.full_name)).data.any Char.isDigit = false) ∧
    (∀ q : ℚ, p.price = some q → 0 ≤ q ∧ q ≤ 10000000) := by
  simp only [isQualityProduct] at h
  split_ifs at h with h1 h2 h3 h4 h5
  refine ⟨h1, ?_, ?_, ?_⟩
  · intro hmem
    exact h2 (List.elem_iff.mpr hmem)
  · rintro ⟨ha, hb⟩
    exact h3 (by simp [ha, hb])
  · intro q hq
    rw [hq] at h4
    simp only [Bool.or_eq_true, decide_eq_true_eq, not_or] at h4
    exact ⟨le_of_not_lt h4.1, le_of_not_lt h4.2⟩

/-- C2: every product surviving the price-list validation layer has a
trimmed name of length at least 3 and a price that is absent or within
`[0, 10_000_000]`; no lower-cased trimmed name of a survivor is a
service/boilerplate word, and no survivor is a single-word name without an
embedded digit. -/
theorem C2_quality_gate_invariant (items : List RawProduct) (p : ExtractedProduct)
    (hp : p ∈ validateAndCleanProducts items) :
    3 ≤ (pyStrip p.full_name).length ∧
    (p.price = none ∨ ∃ q : ℚ, p.price = some q ∧ 0 ≤ q ∧ q ≤ 10000000) ∧
    pyStrip (pyLower p.full_name) ∉ serviceWords ∧
    ¬((pySplit (pyStrip (pyLower p.full_name))).length < 2 ∧
      (pyStrip (pyLower p.full_name)).data.any Char.isDigit = false) := by
  have hmem : p ∈ ((items.map normalizeProduct).filter pydanticOk).filter isQualityProduct := by
    rcases mem_dedupAux _ [] [] p hp with h | h
    · simp at h
    · exact h
  obtain ⟨hmem2, hqual⟩ := List.mem_filter.mp hmem
  obtain ⟨hmem3, hpyd⟩ := List.mem_filter.mp hmem2
  obtain ⟨item, _, hnorm⟩ := List.mem_map.mp hmem3
  obtain ⟨hq1, hq2, hq3, hq4⟩ := isQualityProduct_conditions p hqual
  have hlen : 3 ≤ p.full_name.length := by
    simpa [pydanticOk] using hpyd
  have hstr : pyStrip p.full_name = p.full_name := by
    rw [← hnorm]
    exact normalizeProduct_name_stripped item
  refine ⟨by rw [hstr]; exact hlen, ?_, hq2, hq3⟩
  cases hpr : p.price with
  | none => exact Or.inl rfl
  | some q => exact Or.inr ⟨q, rfl, hq4 q hpr⟩

/-- C2 witness: the invariant applied to a one-item batch that survives
validation. -/
theorem C2_witness :
    (⟨"Кран DN50", some 100, "в наличии"⟩ : ExtractedProduct) ∈
      validateAndCleanProducts [⟨some "Кран DN50", none, some 100, none, some "есть"⟩] ∧
    3 ≤ (pyStrip ("Кран DN50" : String)).length :=
  ⟨by decide,
   (C2_quality_gate_invariant [⟨some "Кран DN50", none, some 100, none, some "есть"⟩]
     ⟨"Кран DN50", some 100, "в наличии"⟩ (by decide)).1⟩

/-- C3: the deduplicated output is pairwise-distinct on the (lower-cased
trimmed name, price, stock) triple; every triple of the input is represented
in the output (so two items that differ only in price are both retained);
and each output item is the first input item bearing its triple. -/
theorem C3_deduplication (ps : List ExtractedProduct) :
    (removeDuplicates ps).Pairwise (fun a b => dedupKey a ≠ dedupKey b) ∧
    (∀ x ∈ ps, ∃ y ∈ removeDuplicates ps, dedupKey y = dedupKey x) ∧
    (∀ x ∈ removeDuplicates ps,
      ps.find? (fun a => decide (dedupKey a = dedupKey x)) = some x) := by
  refine ⟨pairwise_dedupAux ps [] [] (by simp) (by simp), ?_, ?_⟩
  · intro x hx
    exact keyset_dedupAux ps [] [] x hx (by simp)
  · intro x hx
    rcases find_dedupAux ps [] [] x hx with h | ⟨hf, _⟩
    · simp at h
    · exact hf

/-- C3 witness: a batch with a true duplicate and a same-name
different-price pair — the duplicate is dropped, the price variant is kept. -/
theorem C3_witness :
    ((⟨"Кран DN50", none, "в наличии"⟩ : ExtractedProduct) ∈
      [(⟨"Кран DN50", none, "в наличии"⟩ : ExtractedProduct),
       ⟨"Кран DN50", some 100, "в наличии"⟩, ⟨"Кран DN50", none, "в наличии"⟩]) ∧
    (∃ y ∈ removeDuplicates
        [(⟨"Кран DN50", none, "в наличии"⟩ : ExtractedProduct),
         ⟨"Кран DN50", some 100, "в наличии"⟩, ⟨"Кран DN50", none, "в наличии"⟩],
      dedupKey y = dedupKey ⟨"Кран DN50", some 100, "в наличии"⟩) ∧
    ((⟨"Кран DN50", some 100, "в наличии"⟩ : ExtractedProduct) ∈
      removeDuplicates
        [(⟨"Кран DN50", none, "в наличии"⟩ : ExtractedProduct),
         ⟨"Кран DN50", some 100, "в наличии"⟩, ⟨"Кран DN50", none, "в наличии"⟩]) :=
  ⟨by decide,
   (C3_deduplication _).2.1 ⟨"Кран DN50", some 100, "в наличии"⟩ (by decide),
   by decide⟩

/-- C10: although the client-item schema admits quantity 0, the quality gate
rejects quantities outside `[1, 1_000_000]`, so every validated client item
has quantity in that range. -/
theorem C10_client_quantity_bounds (items : List RawClientItem) (it : ClientRequestedItem)
    (h : it ∈ validateAndCleanClientItems items) :
    (1 ≤ it.quantity ∧ it.quantity ≤ 1000000) ∧
    clientPydanticOk ⟨"Фланец Ду100", 0⟩ = true ∧
    isQualityClientItem ⟨"Фланец Ду100", 0⟩ = false := by
  refine ⟨?_, by decide, by decide⟩
  have hmem : it ∈
      ((items.map normalizeClientItem).filter clientPydanticOk).filter isQualityClientItem := by
    rcases mem_clientDedupAux _ [] [] it h with h' | h'
    · simp at h'
    · exact h'
  have hq := (List.mem_filter.mp hmem).2
  simp only [isQualityClientItem] at hq
  split_ifs at hq with h1 h2 h3
  have hbound : (0 < it.quantity && it.quantity ≤ 1000000) = true := by
    revert h3
    cases 0 < it.quantity && it.quantity ≤ 1000000 <;> simp
  simp only [Bool.and_eq_true, decide_eq_true_eq] at hbound
  omega

/-- C10 witness: the bound applied to a one-item batch with quantity 2. -/
theorem C10_witness :
    (⟨"Фланец Ду100", 2⟩ : ClientRequestedItem) ∈
      validateAndCleanClientItems [⟨some "Фланец Ду100", none, some 2⟩] ∧
    1 ≤ (⟨"Фланец Ду100", 2⟩ : ClientRequestedItem).quantity :=
  ⟨by decide,
   (C10_client_quantity_bounds [⟨some "Фланец Ду100", none, some 2⟩]
     ⟨"Фланец Ду100", 2⟩ (by decide)).1.1⟩

/-! ## Cascade controller claims -/

/-- C1: in the price-list cascade a successful Level 1 with at least 5
validated products returns immediately (only level 1 is invoked), and a
successful Level 2 with at least 3 validated products prevents Level 3 from
being invoked; in the client-request cascade the corresponding thresholds
are 1 validated item for Levels 1 and 2. -/
theorem C1_cascade_short_circuit {α : Type} (ext : String) (l1 l2 l3 : LevelOut α) :
    (levelOneExts.contains ext = true → l1.ok = true → 5 ≤ l1.items.length →
      processFileCascade ext l1 l2 l3 = (l1, [1])) ∧
    (l2.ok = true → 3 ≤ l2.items.length → 3 ∉ (processFileCascade ext l1 l2 l3).2) ∧
    (clientLevelOneExts.contains ext = true → l1.ok = true → 1 ≤ l1.items.length →
      processClientCascade ext l1 l2 l3 = (l1, [1])) ∧
    (l2.ok = true → 1 ≤ l2.items.length → 3 ∉ (processClientCascade ext l1 l2 l3).2) := by
  refine ⟨?_, ?_, ?_, ?_⟩
  · intro hc hok hlen
    have hm : ext ∈ levelOneExts := List.elem_iff.mp hc
    simp [processFileCascade, hm, hok, hlen]
  · intro hok hlen
    by_cases hm : ext ∈ levelOneExts
    · by_cases h1 : l1.ok = true ∧ 5 ≤ l1.items.length
      · simp [processFileCascade, hm, h1]
      · simp [processFileCascade, hm, h1, hok, hlen]
    · simp [processFileCascade, hm, hok, hlen]
  · intro hc hok hlen
    have hm : ext ∈ clientLevelOneExts := List.elem_iff.mp hc
    simp [processClientCascade, hm, hok, hlen]
  · intro hok hlen
    by_cases hm : ext ∈ clientLevelOneExts
    · by_cases h1 : l1.ok = true ∧ 1 ≤ l1.items.length
      · simp [processClientCascade, hm, h1]
      · simp [processClientCascade, hm, h1, hok, hlen]
    · simp [processClientCascade, hm, hok, hlen]

/-- C1 witness: the short-circuits exercised on concrete level results. -/
theorem C1_witness :
    (levelOneExts.contains ".xlsx" = true ∧
     processFileCascade ".xlsx" (⟨true, [0, 0, 0, 0, 0]⟩ : LevelOut Nat) ⟨true, []⟩
        ⟨true, []⟩ = (⟨true, [0, 0, 0, 0, 0]⟩, [1])) ∧
    3 ∉ (processFileCascade ".csv" (⟨false, []⟩ : LevelOut Nat) ⟨true, [0, 0, 0]⟩
        ⟨true, []⟩).2 ∧
    processClientCascade ".pdf" (⟨true, [0]⟩ : LevelOut Nat) ⟨false, []⟩ ⟨false, []⟩ =
      (⟨true, [0]⟩, [1]) ∧
    3 ∉ (processClientCascade ".csv" (⟨false, []⟩ : LevelOut Nat) ⟨true, [0]⟩
        ⟨false, []⟩).2 :=
  ⟨⟨by decide,
    (C1_cascade_short_circuit ".xlsx" ⟨true, [0, 0, 0, 0, 0]⟩ ⟨true, []⟩ ⟨true, []⟩).1
      (by decide) rfl (by decide)⟩,
   (C1_cascade_short_circuit ".csv" ⟨false, []⟩ ⟨true, [0, 0, 0]⟩ ⟨true, []⟩).2.1
     rfl (by decide),
   (C1_cascade_short_circuit ".pdf" ⟨true, [0]⟩ ⟨false, []⟩ ⟨false, []⟩).2.2.1
     (by decide) rfl (by decide),
   (C1_cascade_short_circuit ".csv" ⟨false, []⟩ ⟨true, [0]⟩ ⟨false, []⟩).2.2.2
     rfl (by decide)⟩

theorem trace_decomp_file {α : Type} (ext : String) (l1 l2 l3 : LevelOut α) :
    ∃ t, (processFileCascade ext l1 l2 l3).2 =
      (if levelOneExts.contains ext then [1] else []) ++ t ∧ (1 : Nat) ∉ t := by
  unfold processFileCascade
  by_cases hc : levelOneExts.contains ext = true <;>
    simp only [hc, Bool.false_eq_true, if_true, if_false] <;>
    (repeat' split) <;>
    first
      | exact ⟨[], rfl, by decide⟩
      | exact ⟨[2], rfl, by decide⟩
      | exact ⟨[2, 3], rfl, by decide⟩

theorem trace_decomp_client {α : Type} (ext : String) (l1 l2 l3 : LevelOut α) :
    ∃ t, (processClientCascade ext l1 l2 l3).2 =
      (if clientLevelOneExts.contains ext then [1] else []) ++ t ∧ (1 : Nat) ∉ t := by
  unfold processClientCascade
  by_cases hc : clientLevelOneExts.contains ext = true <;>
    simp only [hc, Bool.false_eq_true, if_true, if_false] <;>
    (repeat' split) <;>
    first
      | exact ⟨[], rfl, by decide⟩
      | exact ⟨[2], rfl, by decide⟩
      | exact ⟨[2, 3], rfl, by decide⟩

/-- C5 (corrected): the price-list cascade attempts Level 1 exactly for
`.xlsx`/`.xls` files — not for PDF or Word, which only the client-request
cascade admits (`.xlsx`/`.xls`/`.pdf`/`.docx`); neither cascade attempts
Level 1 for CSV. -/
theorem C5_level1_gate {α : Type} (ext : String) (l1 l2 l3 : LevelOut α) :
    (1 ∈ (processFileCascade ext l1 l2 l3).2 ↔ levelOneExts.contains ext = true) ∧
    (1 ∈ (processClientCascade ext l1 l2 l3).2 ↔ clientLevelOneExts.contains ext = true) ∧
    levelOneExts.contains ".csv" = false ∧ clientLevelOneExts.contains ".csv" = false := by
  refine ⟨?_, ?_, by decide, by decide⟩
  · obtain ⟨t, ht, hnot⟩ := trace_decomp_file ext l1 l2 l3
    rw [ht]
    by_cases hc : levelOneExts.contains ext = true
    · have hm : ext ∈ levelOneExts := List.elem_iff.mp hc
      simp [hc, hm]
    · have hm : ext ∉ levelOneExts := fun h => hc (List.elem_iff.mpr h)
      simp [hc, hm, hnot]
  · obtain ⟨t, ht, hnot⟩ := trace_decomp_client ext l1 l2 l3
    rw [ht]
    by_cases hc : clientLevelOneExts.contains ext = true
    · have hm : ext ∈ clientLevelOneExts := List.elem_iff.mp hc
      simp [hc, hm]
    · have hm : ext ∉ clientLevelOneExts := fun h => hc (List.elem_iff.mpr h)
      simp [hc, hm, hnot]

/-- C5 counterexample: for a `.pdf` file the price-list cascade does not
attempt Level 1 (its gate is `.xlsx`/`.xls` only), contradicting the
claimed "spreadsheet, PDF, or Word" gate. -/
theorem C5_counterexample :
    1 ∉ (processFileCascade ".pdf" (⟨true, [0, 0, 0, 0, 0]⟩ : LevelOut Nat) ⟨false, []⟩
        ⟨false, []⟩).2 := by
  decide

theorem trace_l2fail_file {α : Type} (ext : String) (l1 l3 : LevelOut α)
    (h1 : ¬(l1.ok = true ∧ 5 ≤ l1.items.length)) :
    (processFileCascade ext l1 ⟨false, []⟩ l3).2 =
      (if levelOneExts.contains ext then [1] else []) ++ [2, 3] := by
  unfold processFileCascade
  by_cases hc : levelOneExts.contains ext = true <;>
    simp only [hc, Bool.false_eq_true, if_true, if_false] <;>
    (repeat' split) <;>
    first
      | rfl
      | (exfalso; simp_all)

/-- C6 (corrected): pydantic validation of the structure map rejects exactly
the maps with a missing required field or an empty `name_parts_col_indices`;
no comparison of `data_start_row_index` with `header_row_index` is
performed, and a Level 2 failure falls through to Level 3 whenever Level 1
did not short-circuit. -/
theorem C6_map_validation {α : Type} (m : RawPriceListMap) (ext : String)
    (l1 l3 : LevelOut α) :
    (validatePriceListMap m = none ↔
      m.header_row_index = none ∨ m.data_start_row_index = none ∨ m.column_map = none ∨
      (∃ cm, m.column_map = some cm ∧
        (cm.name_parts_col_indices = none ∨ cm.name_parts_col_indices = some []))) ∧
    (¬(l1.ok = true ∧ 5 ≤ l1.items.length) →
      3 ∈ (processFileCascade ext l1 ⟨false, []⟩ l3).2) := by
  constructor
  · obtain ⟨mh, md, mc⟩ := m
    cases mh with
    | none => simp [validatePriceListMap]
    | some h =>
      cases md with
      | none => simp [validatePriceListMap]
      | some d =>
        cases mc with
        | none => simp [validatePriceListMap]
        | some cm =>
          obtain ⟨cp, cs, cn⟩ := cm
          cases cn with
          | none => simp [validatePriceListMap]
          | some idxs =>
            cases idxs with
            | nil => simp [validatePriceListMap]
            | cons i is => simp [validatePriceListMap]
  · intro h1
    rw [trace_l2fail_file ext l1 l3 h1]
    by_cases hc : levelOneExts.contains ext = true <;> simp [hc]

/-- C6 counterexample: a map whose `data_start_row_index` (3) is not greater
than its `header_row_index` (5) is accepted by the validation. -/
theorem C6_counterexample :
    validatePriceListMap ⟨some 5, some 3, some ⟨none, none, some [1]⟩⟩ =
      some ⟨5, 3, ⟨none, none, [1]⟩⟩ ∧ (3 : Int) ≤ 5 := by
  decide

/-- C6 witness: the fall-through conjunct at a failed Level 1. -/
theorem C6_witness :
    (¬((⟨false, []⟩ : LevelOut Nat).ok = true ∧
        5 ≤ (⟨false, []⟩ : LevelOut Nat).items.length)) ∧
    3 ∈ (processFileCascade ".xlsx" (⟨false, []⟩ : LevelOut Nat) ⟨false, []⟩
        ⟨false, []⟩).2 :=
  ⟨by decide,
   (C6_map_validation ⟨none, none, none⟩ ".xlsx" (⟨false, []⟩ : LevelOut Nat)
     ⟨false, []⟩).2 (by decide)⟩

end Cascade
